import Mathlib

/-
Verification of takumi3488/s3copy.

Shallow embedding of the two Rust sources:
  * src/main.rs      - bucket migration: diffing, strategy selection, multipart upload
  * src/bin/delete.rs - bucket purge: paginated listing, per-key delete, bucket delete

Bytes are modelled as Nat, byte buffers as List Nat, and the source object's
body stream as the finite list of chunks yielded by successive try_next calls.
Fallible operations return Option / Except; a None / .error models a Rust panic.
-/

namespace S3Copy

/-- main.rs line 16: max_keys bound used by the listing calls. -/
def MAX_KEYS : Int := 1000000

/-- main.rs line 17: fixed chunk size, 5 MiB. -/
def CHUNK_SIZE : Nat := 5 * 1024 * 1024

/-- The read loop of multipart_upload (main.rs lines 212-259): the buffer
`part` accumulates stream chunks; whenever its length reaches or exceeds
CHUNK_SIZE it is cut and dispatched as the next part, and after the stream is
exhausted a non-empty remainder is dispatched as the final part.  The result
is the list of dispatched part bodies in dispatch (sequence-number) order. -/
def partsLoop : List (List Nat) → List Nat → List (List Nat)
  | [], part => if part.isEmpty then [] else [part]
  | bytes :: rest, part =>
    if CHUNK_SIZE ≤ (part ++ bytes).length then (part ++ bytes) :: partsLoop rest []
    else partsLoop rest (part ++ bytes)

/-- The parts dispatched by multipart_upload for a given stream of body
chunks (main.rs lines 212-259), starting from the empty buffer. -/
def multipartParts (chunks : List (List Nat)) : List (List Nat) :=
  partsLoop chunks []

/-- Parts paired with their assigned part numbers: part_number starts at 0 and
is incremented just before each dispatch (main.rs lines 213, 219, 242), so the
i-th dispatched part carries sequence number i+1. -/
def assignedParts (chunks : List (List Nat)) : List (Nat × List Nat) :=
  (multipartParts chunks).enum.map fun p => (p.1 + 1, p.2)

lemma chunk_size_pos : 0 < CHUNK_SIZE := by decide

lemma partsLoop_flatten (chunks : List (List Nat)) :
    ∀ part : List Nat, (partsLoop chunks part).flatten = part ++ chunks.flatten := by
  induction chunks with
  | nil =>
    intro part
    by_cases h : part.isEmpty
    · simp [partsLoop, h, List.isEmpty_iff.mp h]
    · simp [partsLoop, h]
  | cons bytes rest ih =>
    intro part
    simp only [partsLoop]
    split
    · simp [ih, List.append_assoc]
    · simp [ih, List.append_assoc]

/-- C1: concatenating, in sequence-number order, the parts dispatched by
multipart_upload reproduces exactly the concatenation of all chunks read from
the source object body stream. -/
theorem c1_multipart_roundtrip (chunks : List (List Nat)) :
    (multipartParts chunks).flatten = chunks.flatten := by
  simpa using partsLoop_flatten chunks []

lemma partsLoop_dropLast_ge (chunks : List (List Nat)) :
    ∀ part : List Nat, ∀ p ∈ (partsLoop chunks part).dropLast, CHUNK_SIZE ≤ p.length := by
  induction chunks with
  | nil =>
    intro part p hp
    by_cases h : part.isEmpty <;> simp [partsLoop, h] at hp
  | cons bytes rest ih =>
    intro part p hp
    simp only [partsLoop] at hp
    split at hp
    next hcut =>
      cases hrec : partsLoop rest [] with
      | nil => rw [hrec] at hp; simp at hp
      | cons q t =>
        rw [hrec, List.dropLast_cons₂] at hp
        rcases List.mem_cons.mp hp with h | h
        · subst h; exact hcut
        · exact ih [] p (by rw [hrec]; exact h)
    next hcut => exact ih _ p hp

lemma partsLoop_ne_nil (chunks : List (List Nat)) :
    ∀ part : List Nat, ∀ p ∈ partsLoop chunks part, p ≠ [] := by
  induction chunks with
  | nil =>
    intro part p hp
    by_cases h : part.isEmpty
    · simp [partsLoop, h] at hp
    · simp [partsLoop, h] at hp
      subst hp
      simpa [List.isEmpty_iff] using h
  | cons bytes rest ih =>
    intro part p hp
    simp only [partsLoop] at hp
    split at hp
    next hcut =>
      rcases List.mem_cons.mp hp with h | h
      · subst h
        have := chunk_size_pos
        intro hnil
        rw [hnil] at hcut
        simp at hcut
        omega
      · exact ih [] p h
    next hcut => exact ih _ p hp

/-- C9: every part dispatched by multipart_upload other than the final one has
length at least CHUNK_SIZE (the buffer is cut only once it reaches or exceeds
the threshold), and no dispatched part is empty. -/
theorem c9_part_size_invariant (chunks : List (List Nat)) :
    (∀ p ∈ (multipartParts chunks).dropLast, CHUNK_SIZE ≤ p.length) ∧
    (∀ p ∈ multipartParts chunks, p ≠ []) :=
  ⟨partsLoop_dropLast_ge chunks [], partsLoop_ne_nil chunks []⟩

lemma multipartParts_two_chunk_example :
    multipartParts [List.replicate CHUNK_SIZE 0, [5]] = [List.replicate CHUNK_SIZE 0, [5]] := by
  have h1 : CHUNK_SIZE ≤ (([] : List Nat) ++ List.replicate CHUNK_SIZE 0).length := by simp
  have h2 : ¬ CHUNK_SIZE ≤ (([] : List Nat) ++ [5]).length := by simp [CHUNK_SIZE]
  rw [multipartParts, partsLoop, if_pos h1, partsLoop, if_neg h2, partsLoop]
  simp

/-- Witness for C9 at a concrete stream: a full 5 MiB chunk followed by one
extra byte yields a first part of exactly CHUNK_SIZE bytes and a non-empty
final part. -/
theorem c9_part_size_invariant_witness :
    List.replicate CHUNK_SIZE (0 : Nat) ∈
      (multipartParts [List.replicate CHUNK_SIZE 0, [5]]).dropLast ∧
    CHUNK_SIZE ≤ (List.replicate CHUNK_SIZE (0 : Nat)).length ∧
    [5] ∈ multipartParts [List.replicate CHUNK_SIZE (0 : Nat), [5]] ∧
    ([5] : List Nat) ≠ [] := by
  have hmem1 : List.replicate CHUNK_SIZE (0 : Nat) ∈
      (multipartParts [List.replicate CHUNK_SIZE 0, [5]]).dropLast := by
    rw [multipartParts_two_chunk_example]; simp
  have hmem2 : [5] ∈ multipartParts [List.replicate CHUNK_SIZE (0 : Nat), [5]] := by
    rw [multipartParts_two_chunk_example]; simp
  exact ⟨hmem1, (c9_part_size_invariant _).1 _ hmem1,
    hmem2, (c9_part_size_invariant _).2 _ hmem2⟩

lemma partsLoop_unit_lengths (chunks : List (List Nat)) :
    ∀ part : List Nat, (∀ c ∈ chunks, c.length = 1) → part.length < CHUNK_SIZE →
    (partsLoop chunks part).map List.length =
      List.replicate ((part.length + chunks.length) / CHUNK_SIZE) CHUNK_SIZE ++
        (if (part.length + chunks.length) % CHUNK_SIZE = 0 then []
         else [(part.length + chunks.length) % CHUNK_SIZE]) := by
  induction chunks with
  | nil =>
    intro part hc hp
    have h0 : part.length / CHUNK_SIZE = 0 := Nat.div_eq_of_lt hp
    have h1 : part.length % CHUNK_SIZE = part.length := Nat.mod_eq_of_lt hp
    by_cases h : part.isEmpty
    · have hnil : part = [] := List.isEmpty_iff.mp h
      subst hnil
      simp [partsLoop]
    · have hne : part.length ≠ 0 := by
        intro h0'
        exact h (List.isEmpty_iff.mpr (List.length_eq_zero.mp h0'))
      simp [partsLoop, h, h0, h1, hne]
  | cons bytes rest ih =>
    intro part hc hp
    have hb : bytes.length = 1 := hc bytes (by simp)
    have hrestc : ∀ c ∈ rest, c.length = 1 := fun c hcm => hc c (List.mem_cons_of_mem _ hcm)
    rw [partsLoop]
    split
    next hcut =>
      have hlen : (part ++ bytes).length = CHUNK_SIZE := by
        rw [List.length_append, hb] at hcut ⊢
        omega
      rw [List.map_cons, hlen, ih [] hrestc (by simpa using chunk_size_pos)]
      have htot : part.length + (bytes :: rest).length = CHUNK_SIZE + rest.length := by
        rw [List.length_append, hb] at hlen
        simp only [List.length_cons]
        omega
      rw [htot]
      have hdiv : (CHUNK_SIZE + rest.length) / CHUNK_SIZE = rest.length / CHUNK_SIZE + 1 := by
        rw [Nat.add_comm]
        exact Nat.add_div_right _ chunk_size_pos
      have hmod : (CHUNK_SIZE + rest.length) % CHUNK_SIZE = rest.length % CHUNK_SIZE := by
        rw [Nat.add_comm]
        exact Nat.add_mod_right _ _
      rw [hdiv, hmod]
      simp [List.replicate_succ]
    next hcut =>
      have hlt : (part ++ bytes).length < CHUNK_SIZE := Nat.lt_of_not_le hcut
      rw [ih (part ++ bytes) hrestc hlt]
      have htot : (part ++ bytes).length + rest.length = part.length + (bytes :: rest).length := by
        rw [List.length_append, hb, List.length_cons]
        omega
      rw [htot]

lemma flatten_length_of_unit (chunks : List (List Nat))
    (hc : ∀ c ∈ chunks, c.length = 1) : chunks.flatten.length = chunks.length := by
  induction chunks with
  | nil => simp
  | cons c rest ih =>
    have h1 : c.length = 1 := hc c (by simp)
    have h2 : rest.flatten.length = rest.length :=
      ih (fun d hd => hc d (List.mem_cons_of_mem _ hd))
    simp only [List.flatten_cons, List.length_append, List.length_cons, h1, h2]
    omega

/-- C3 counterexample: the code cuts parts only at source stream-chunk
boundaries, so a stream delivering a single chunk of 2 * CHUNK_SIZE bytes
(N = 2 * CHUNK_SIZE) is dispatched as ONE part of size 2 * CHUNK_SIZE, not
ceil(N / CHUNK_SIZE) = 2 parts of size CHUNK_SIZE as the claim requires. -/
theorem c3_chunk_count_counterexample :
    (multipartParts [List.replicate (2 * CHUNK_SIZE) 0]).length = 1 ∧
    ([List.replicate (2 * CHUNK_SIZE) (0 : Nat)]).flatten.length = 2 * CHUNK_SIZE ∧
    (2 * CHUNK_SIZE + CHUNK_SIZE - 1) / CHUNK_SIZE = 2 ∧
    (multipartParts [List.replicate (2 * CHUNK_SIZE) 0]).map List.length =
      [2 * CHUNK_SIZE] ∧
    2 * CHUNK_SIZE ≠ CHUNK_SIZE := by
  have h1 : CHUNK_SIZE ≤ (([] : List Nat) ++ List.replicate (2 * CHUNK_SIZE) 0).length := by
    rw [List.nil_append, List.length_replicate]
    omega
  have hparts : multipartParts [List.replicate (2 * CHUNK_SIZE) 0] =
      [List.replicate (2 * CHUNK_SIZE) 0] := by
    rw [multipartParts, partsLoop, if_pos h1, List.nil_append,
      show partsLoop [] [] = ([] : List (List Nat)) from rfl]
  refine ⟨by rw [hparts]; rfl,
    by rw [List.flatten_cons, List.flatten_nil, List.append_nil, List.length_replicate],
    ?_,
    by rw [hparts, List.map_cons, List.map_nil, List.length_replicate],
    by have := chunk_size_pos; omega⟩
  rw [show CHUNK_SIZE = 5242880 from rfl]

/-- C3 (amended): when the source stream delivers its bytes one at a time
(every stream chunk has length 1, so every buffer cut lands exactly on the
chunk-size boundary), multipart_upload dispatches exactly ceil(N / CHUNK_SIZE)
parts for an object of N bytes; every part has size CHUNK_SIZE except that,
when CHUNK_SIZE does not divide N, the final part has size N % CHUNK_SIZE. -/
theorem c3_chunk_count_amended (chunks : List (List Nat))
    (hc : ∀ c ∈ chunks, c.length = 1) :
    (multipartParts chunks).length =
      (chunks.flatten.length + CHUNK_SIZE - 1) / CHUNK_SIZE ∧
    (multipartParts chunks).map List.length =
      List.replicate (chunks.flatten.length / CHUNK_SIZE) CHUNK_SIZE ++
        (if chunks.flatten.length % CHUNK_SIZE = 0 then []
         else [chunks.flatten.length % CHUNK_SIZE]) := by
  have hN : chunks.flatten.length = chunks.length := flatten_length_of_unit chunks hc
  have h := partsLoop_unit_lengths chunks [] hc (by simpa using chunk_size_pos)
  simp only [List.length_nil, Nat.zero_add] at h
  rw [multipartParts] at *
  constructor
  · have hlen : (partsLoop chunks []).length =
        ((partsLoop chunks []).map List.length).length := (List.length_map _ _).symm
    rw [hlen, h, hN, show CHUNK_SIZE = 5242880 from rfl]
    by_cases hm : chunks.length % 5242880 = 0
    · rw [if_pos hm]
      simp only [List.length_append, List.length_replicate, List.length_nil]
      omega
    · rw [if_neg hm]
      simp only [List.length_append, List.length_replicate, List.length_cons, List.length_nil]
      omega
  · rw [hN]
    exact h

/-- Witness for the amended C3 at the one-byte stream [[7]]: one part,
of size 1 = N % CHUNK_SIZE. -/
theorem c3_chunk_count_amended_witness :
    (∀ c ∈ [[(7 : Nat)]], List.length c = 1) ∧
    ((multipartParts [[(7 : Nat)]]).length =
      (([[(7 : Nat)]] : List (List Nat)).flatten.length + CHUNK_SIZE - 1) / CHUNK_SIZE ∧
    (multipartParts [[(7 : Nat)]]).map List.length =
      List.replicate (([[(7 : Nat)]] : List (List Nat)).flatten.length / CHUNK_SIZE) CHUNK_SIZE ++
        (if ([[(7 : Nat)]] : List (List Nat)).flatten.length % CHUNK_SIZE = 0 then []
         else [([[(7 : Nat)]] : List (List Nat)).flatten.length % CHUNK_SIZE])) :=
  ⟨by decide, c3_chunk_count_amended [[(7 : Nat)]] (by decide)⟩

/-- The two upload paths of main.rs lines 166-174. -/
inductive UploadStrategy where
  | single
  | multipart
deriving DecidableEq

/-- main.rs line 166: object.content_length().unwrap_or(0) < CHUNK_SIZE as i64
selects singlepart_upload, otherwise multipart_upload.  content_length is an
optional signed integer. -/
def selectStrategy (contentLength : Option Int) : UploadStrategy :=
  if contentLength.getD 0 < (CHUNK_SIZE : Int) then UploadStrategy.single
  else UploadStrategy.multipart

/-- C4: an object goes to single-shot upload exactly when its size is strictly
below the 5 MiB threshold, and to multipart upload otherwise; in particular
threshold-1 selects single while threshold and threshold+1 select multipart. -/
theorem c4_strategy_boundary :
    (∀ size : Int,
      selectStrategy (some size) = UploadStrategy.single ↔ size < (CHUNK_SIZE : Int)) ∧
    selectStrategy (some ((CHUNK_SIZE : Int) - 1)) = UploadStrategy.single ∧
    selectStrategy (some (CHUNK_SIZE : Int)) = UploadStrategy.multipart ∧
    selectStrategy (some ((CHUNK_SIZE : Int) + 1)) = UploadStrategy.multipart := by
  refine ⟨fun size => ?_, ?_, ?_, ?_⟩
  · by_cases h : size < (CHUNK_SIZE : Int)
    · simp [selectStrategy, h]
    · simp [selectStrategy, h]
  · simp only [selectStrategy, Option.getD_some]
    rw [if_pos (by omega)]
  · simp only [selectStrategy, Option.getD_some]
    rw [if_neg (by omega)]
  · simp only [selectStrategy, Option.getD_some]
    rw [if_neg (by omega)]

/-- An entry of an object listing, keeping the fields main.rs reads: the key
(unwrapped at use sites) and the size reported for the object. -/
structure ObjectRec where
  key : String
  contentLength : Option Int
deriving DecidableEq

/-- main.rs lines 111-122: the set of keys listed at the destination bucket
(migrated_objects), collected from the new client's list_objects_v2 page. -/
def migratedKeys (destObjects : List ObjectRec) : List String :=
  destObjects.map (fun o => o.key)

/-- main.rs lines 124-137: the source listing filtered down to the objects
whose key the destination listing does not contain. -/
def pendingObjects (sourceObjects destObjects : List ObjectRec) : List ObjectRec :=
  sourceObjects.filter fun o => !(migratedKeys destObjects).contains o.key

/-- C5: the pending set is exactly the set-difference of source keys minus
destination keys, decided by exact string equality of keys; an empty source
listing gives an empty pending set, and an empty destination listing leaves
the whole source listing pending. -/
theorem c5_diff_set_difference (src dst : List ObjectRec) :
    (∀ o, o ∈ pendingObjects src dst ↔
      o ∈ src ∧ o.key ∉ dst.map (fun d => d.key)) ∧
    pendingObjects [] dst = [] ∧
    pendingObjects src [] = src := by
  refine ⟨fun o => ?_, rfl, ?_⟩
  · simp [pendingObjects, migratedKeys, List.mem_filter]
  · simp [pendingObjects, migratedKeys]

/-- Whether the character list s begins with the character list p. -/
def listStarts : List Char → List Char → Bool
  | [], _ => true
  | _ :: _, [] => false
  | p :: ps, c :: cs => p == c && listStarts ps cs

/-- Whether the character list s contains pat as a contiguous sublist. -/
def listHasSub (pat : List Char) : List Char → Bool
  | [] => pat.isEmpty
  | c :: cs => listStarts pat (c :: cs) || listHasSub pat cs

/-- main.rs lines 95 and 104: format!("{:?}", e).contains(pat), the substring
test applied to the debug representation of the creation error. -/
def errContains (e pat : String) : Bool :=
  listHasSub pat.toList e.toList

/-- main.rs lines 87-109: destination bucket creation for one source bucket.
The input is the debug string of the first create_bucket outcome (.ok for
success, .error e for a failure whose debug representation is e) and the value
of NEW_BUCKET_SUFFIX (none when the variable is unset).  The output is the
list of bucket names passed to create_bucket, in call order, and the bucket
name the run continues with (none models a panic terminating the run).
On a BucketAlreadyExists failure the suffix is appended and creation retried
once, its result discarded; a BucketAlreadyOwnedByYou failure is treated as
success; any other failure panics. -/
def createDestBucket (bucketName : String) (suffix : Option String)
    (firstResult : Except String Unit) : List String × Option String :=
  match firstResult with
  | Except.ok _ => ([bucketName], some bucketName)
  | Except.error e =>
    if errContains e "BucketAlreadyExists" then
      match suffix with
      | some s => ([bucketName, bucketName ++ s], some (bucketName ++ s))
      | none => ([bucketName], none)
    else if !(errContains e "BucketAlreadyOwnedByYou") then ([bucketName], none)
    else ([bucketName], some bucketName)

/-- C6: if creation fails with BucketAlreadyExists, the configured suffix is
appended and creation is retried exactly once with the suffixed name, which
the run then uses; a BucketAlreadyOwnedByYou failure is treated as success and
the run continues with the original name after the single call; any other
failure leaves the single call and terminates the run. -/
theorem c6_bucket_creation_handling (name s e : String) :
    (errContains e "BucketAlreadyExists" = true →
      createDestBucket name (some s) (Except.error e) =
        ([name, name ++ s], some (name ++ s))) ∧
    (errContains e "BucketAlreadyExists" = false →
      errContains e "BucketAlreadyOwnedByYou" = true →
      createDestBucket name (some s) (Except.error e) = ([name], some name)) ∧
    (errContains e "BucketAlreadyExists" = false →
      errContains e "BucketAlreadyOwnedByYou" = false →
      createDestBucket name (some s) (Except.error e) = ([name], none)) ∧
    createDestBucket name (some s) (Except.ok ()) = ([name], some name) := by
  refine ⟨fun h1 => ?_, fun h1 h2 => ?_, fun h1 h2 => ?_, rfl⟩
  · simp [createDestBucket, h1]
  · simp [createDestBucket, h1, h2]
  · simp [createDestBucket, h1, h2]

/-- Witness for C6 at concrete error strings: the three failure kinds produce
the retried suffixed name, idempotent success, and a fatal stop. -/
theorem c6_bucket_creation_handling_witness :
    errContains "BucketAlreadyExists: service error" "BucketAlreadyExists" = true ∧
    createDestBucket "b" (some "-x") (Except.error "BucketAlreadyExists: service error") =
      (["b", "b-x"], some "b-x") ∧
    createDestBucket "b" (some "-x") (Except.error "BucketAlreadyOwnedByYou: service error") =
      (["b"], some "b") ∧
    createDestBucket "b" (some "-x") (Except.error "AccessDenied") = (["b"], none) :=
  ⟨by decide,
   (c6_bucket_creation_handling "b" "-x" "BucketAlreadyExists: service error").1 (by decide),
   (c6_bucket_creation_handling "b" "-x" "BucketAlreadyOwnedByYou: service error").2.1
     (by decide) (by decide),
   (c6_bucket_creation_handling "b" "-x" "AccessDenied").2.2.1 (by decide) (by decide)⟩

/-- The field of an upload_part response that multipart_upload reads. -/
structure UploadPartOutput where
  e_tag : Option String
deriving DecidableEq

/-- main.rs lines 261-266: the per-task unwrap applied while mapping over the
joined task results; the first task that returned an error panics the run,
modelled as none. -/
def collectOk : List (Except String UploadPartOutput) → Option (List UploadPartOutput)
  | [] => some []
  | Except.ok o :: rest => (collectOk rest).map (o :: ·)
  | Except.error _ :: _ => none

/-- main.rs lines 261-272: the completion manifest: each joined result, in
task (assignment) order, becomes a CompletedPart with part_number i+1 and an
e_tag defaulting to the empty string when the response carried none. -/
def buildCompletedParts (results : List (Except String UploadPartOutput)) :
    Option (List (Nat × String)) :=
  (collectOk results).map fun outs =>
    outs.enum.map fun p => (p.1 + 1, (p.2.e_tag).getD "")

lemma collectOk_eq_none (results : List (Except String UploadPartOutput)) :
    (collectOk results) = none ↔ ∃ e, Except.error e ∈ results := by
  induction results with
  | nil => simp [collectOk]
  | cons r rest ih =>
    cases r with
    | ok o => simp [collectOk, Option.map_eq_none, ih]
    | error e => simp [collectOk]

lemma collectOk_map_ok (outs : List UploadPartOutput) :
    collectOk (outs.map Except.ok) = some outs := by
  induction outs with
  | nil => rfl
  | cons o rest ih => simp [collectOk, ih]

/-- C10: building the completion manifest defaults an absent e_tag to the
empty string and still proceeds to the complete call; the transfer fails at
the join point exactly when some part-upload task returned an error. -/
theorem c10_manifest_etag_default (results : List (Except String UploadPartOutput)) :
    ((buildCompletedParts results).isNone ↔ ∃ e, Except.error e ∈ results) ∧
    (∀ outs : List UploadPartOutput, results = outs.map Except.ok →
      buildCompletedParts results =
        some (outs.enum.map fun p => (p.1 + 1, (p.2.e_tag).getD ""))) ∧
    (∀ outs : List UploadPartOutput, ∀ i : Nat, results = outs.map Except.ok →
      outs.get? i = some ⟨none⟩ →
      ∃ l, buildCompletedParts results = some l ∧ l.get? i = some (i + 1, "")) := by
  refine ⟨?_, fun outs h => ?_, fun outs i h hi => ?_⟩
  · rw [buildCompletedParts, Option.isNone_iff_eq_none, Option.map_eq_none']
    exact collectOk_eq_none results
  · rw [buildCompletedParts, h, collectOk_map_ok]
    rfl
  · refine ⟨outs.enum.map fun p => (p.1 + 1, (p.2.e_tag).getD ""), ?_, ?_⟩
    · rw [buildCompletedParts, h, collectOk_map_ok]
      rfl
    · rw [List.get?_map, List.get?_enum, hi]
      rfl

/-- Witness for C10: one task with a present tag and one whose response has no
e_tag build the manifest entries (1, "t1") and (2, ""). -/
theorem c10_manifest_etag_default_witness :
    ([Except.ok ⟨some "t1"⟩, Except.ok ⟨none⟩] : List (Except String UploadPartOutput)) =
      ([⟨some "t1"⟩, ⟨none⟩] : List UploadPartOutput).map Except.ok ∧
    (([⟨some "t1"⟩, ⟨none⟩] : List UploadPartOutput).get? 1 = some ⟨none⟩) ∧
    (∃ l, buildCompletedParts [Except.ok ⟨some "t1"⟩, Except.ok ⟨none⟩] = some l ∧
      l.get? 1 = some (1 + 1, "")) :=
  ⟨rfl, rfl,
    (c10_manifest_etag_default [Except.ok ⟨some "t1"⟩, Except.ok ⟨none⟩]).2.2
      [⟨some "t1"⟩, ⟨none⟩] 1 rfl rfl⟩

/-- The record of part-upload task completions: the scheduler finishes the
spawned tasks in the order given by order (task indices into the assignment
order); each completion carries the task's index and its result.  Indices out
of range never complete. -/
def completionLog {α : Type} (results : List α) (order : List Nat) : List (Nat × α) :=
  order.filterMap fun i => (results.get? i).map fun r => (i, r)

/-- The result of the task with index i, found in the completion record. -/
def lookupResult {α : Type} (i : Nat) : List (Nat × α) → Option α
  | [] => none
  | (j, r) :: rest => if j = i then some r else lookupResult i rest

/-- main.rs line 261: futures::future::try_join_all awaits the spawned tasks
in the order they were pushed onto upload_tasks (assignment order), producing
their results in that order no matter when each completed. -/
def joinResults {α : Type} (n : Nat) (log : List (Nat × α)) : List (Option α) :=
  (List.range n).map fun i => lookupResult i log

lemma lookupResult_completionLog {α : Type} (results : List α) :
    ∀ order : List Nat, order.Nodup → ∀ i, i ∈ order → i < results.length →
    lookupResult i (completionLog results order) = results.get? i := by
  intro order
  induction order with
  | nil =>
    intro _ i hi
    simp at hi
  | cons j rest ih =>
    intro hnd i hi hlt
    have hnd' : rest.Nodup := (List.nodup_cons.mp hnd).2
    cases hj : results.get? j with
    | none =>
      have hstep : completionLog results (j :: rest) = completionLog results rest := by
        simp only [completionLog, List.filterMap_cons, hj, Option.map_none']
      rw [hstep]
      have hij : i ≠ j := by
        intro hh
        subst hh
        have := List.get?_eq_none.mp hj
        omega
      have hirest : i ∈ rest := by
        rcases List.mem_cons.mp hi with h | h
        · exact absurd h hij
        · exact h
      exact ih hnd' i hirest hlt
    | some r =>
      have hstep : completionLog results (j :: rest) = (j, r) :: completionLog results rest := by
        simp only [completionLog, List.filterMap_cons, hj, Option.map_some']
      rw [hstep, lookupResult]
      by_cases hij : j = i
      · subst hij
        rw [if_pos rfl, hj]
      · rw [if_neg hij]
        have hirest : i ∈ rest := by
          rcases List.mem_cons.mp hi with h | h
          · exact absurd h (fun hh => hij hh.symm)
          · exact h
        exact ih hnd' i hirest hlt

lemma map_get?_range {α : Type} (l : List α) :
    (List.range l.length).map (fun i => l.get? i) = l.map some := by
  induction l with
  | nil => simp
  | cons a t ih =>
    rw [List.length_cons, List.range_succ_eq_map, List.map_cons, List.map_map]
    simp only [Function.comp_def, List.get?_cons_succ, List.get?_cons_zero]
    rw [ih, List.map_cons]

lemma assignedParts_numbers (chunks : List (List Nat)) :
    (assignedParts chunks).map Prod.fst = List.range' 1 (multipartParts chunks).length := by
  rw [assignedParts, List.map_map]
  have hcomp : (Prod.fst ∘ fun p : Nat × List Nat => (p.1 + 1, p.2)) =
      (fun i => 1 + i) ∘ Prod.fst := by
    funext p
    simp [Nat.add_comm]
  rw [hcomp, ← List.map_map, List.enum_map_fst, ← List.range'_eq_map_range]

/-- C2: sequence numbers 1, 2, ... are assigned to parts in cut order, and
joining the concurrent part-upload tasks yields their results in assignment
order for every completion order: any permutation of task completions
produces the same joined list (each task's own result, in assignment order),
hence the same completion manifest. -/
theorem c2_manifest_completion_invariant {α : Type} (results : List α)
    (order1 order2 : List Nat)
    (h1 : order1.Perm (List.range results.length))
    (h2 : order2.Perm (List.range results.length)) :
    joinResults results.length (completionLog results order1) = results.map some ∧
    joinResults results.length (completionLog results order1) =
      joinResults results.length (completionLog results order2) ∧
    ∀ chunks : List (List Nat),
      (assignedParts chunks).map Prod.fst = List.range' 1 (multipartParts chunks).length := by
  have key : ∀ order : List Nat, order.Perm (List.range results.length) →
      joinResults results.length (completionLog results order) = results.map some := by
    intro order hp
    rw [joinResults]
    have hcong : ∀ i ∈ List.range results.length,
        lookupResult i (completionLog results order) = results.get? i := by
      intro i hi
      exact lookupResult_completionLog results order
        (hp.nodup_iff.mpr (List.nodup_range _)) i (hp.mem_iff.mpr hi)
        (List.mem_range.mp hi)
    rw [List.map_congr_left hcong]
    exact map_get?_range results
  exact ⟨key order1 h1, (key order1 h1).trans (key order2 h2).symm,
    assignedParts_numbers⟩

/-- Witness for C2: three task results joined under two different completion
orders both reproduce the assignment-order results. -/
theorem c2_manifest_completion_invariant_witness :
    ([2, 0, 1] : List Nat).Perm (List.range ([10, 20, 30] : List Nat).length) ∧
    ([1, 2, 0] : List Nat).Perm (List.range ([10, 20, 30] : List Nat).length) ∧
    (joinResults ([10, 20, 30] : List Nat).length
        (completionLog ([10, 20, 30] : List Nat) [2, 0, 1]) =
      ([10, 20, 30] : List Nat).map some ∧
    joinResults ([10, 20, 30] : List Nat).length
        (completionLog ([10, 20, 30] : List Nat) [2, 0, 1]) =
      joinResults ([10, 20, 30] : List Nat).length
        (completionLog ([10, 20, 30] : List Nat) [1, 2, 0]) ∧
    ∀ chunks : List (List Nat),
      (assignedParts chunks).map Prod.fst = List.range' 1 (multipartParts chunks).length) :=
  ⟨by decide, by decide,
    c2_manifest_completion_invariant [10, 20, 30] [2, 0, 1] [1, 2, 0] (by decide) (by decide)⟩

/-- delete.rs lines 59-84: inserting one listed key into the accumulating
set of keys (a HashSet in the source; modelled as an insertion-ordered
duplicate-free list, which carries the same membership). -/
def insertKey (acc : List String) (k : String) : List String :=
  if k ∈ acc then acc else acc ++ [k]

/-- delete.rs lines 59-84: all keys of all marker-chained listing pages,
inserted page by page into the deduplicating set. -/
def collectKeys (pages : List (List String)) : List String :=
  pages.foldl (fun acc page => page.foldl insertKey acc) []

/-- The two storage calls the purge loop issues for one bucket. -/
inductive PurgeOp where
  | deleteObject (key : String)
  | deleteBucket (bucket : String)
deriving DecidableEq

def PurgeOp.isDeleteObject : PurgeOp → Bool
  | PurgeOp.deleteObject _ => true
  | _ => false

def PurgeOp.isDeleteBucket : PurgeOp → Bool
  | PurgeOp.deleteBucket _ => true
  | _ => false

/-- delete.rs lines 86-104: one delete_object call per collected key, then a
single delete_bucket call. -/
def purgeOps (bucketName : String) (pages : List (List String)) : List PurgeOp :=
  (collectKeys pages).map PurgeOp.deleteObject ++ [PurgeOp.deleteBucket bucketName]

lemma insertKey_nodup {acc : List String} {k : String} (h : acc.Nodup) :
    (insertKey acc k).Nodup := by
  rw [insertKey]
  split
  · exact h
  · next hk => simp [List.nodup_append, h, hk]

lemma insertKey_mem {acc : List String} {k x : String} :
    x ∈ insertKey acc k ↔ x ∈ acc ∨ x = k := by
  rw [insertKey]
  split
  · next hk =>
    constructor
    · exact fun hx => Or.inl hx
    · rintro (hx | rfl)
      · exact hx
      · exact hk
  · simp

lemma foldl_insertKey_nodup (page : List String) :
    ∀ acc : List String, acc.Nodup → (page.foldl insertKey acc).Nodup := by
  induction page with
  | nil => exact fun _ h => h
  | cons k rest ih => exact fun acc h => ih _ (insertKey_nodup h)

lemma foldl_insertKey_mem (page : List String) :
    ∀ acc x, x ∈ page.foldl insertKey acc ↔ x ∈ acc ∨ x ∈ page := by
  induction page with
  | nil => simp
  | cons k rest ih =>
    intro acc x
    rw [List.foldl_cons, ih]
    simp only [insertKey_mem, List.mem_cons]
    tauto

lemma collect_aux_nodup (pages : List (List String)) :
    ∀ acc : List String, acc.Nodup →
      (pages.foldl (fun acc page => page.foldl insertKey acc) acc).Nodup := by
  induction pages with
  | nil => exact fun _ h => h
  | cons page rest ih => exact fun acc h => ih _ (foldl_insertKey_nodup page acc h)

lemma collect_aux_mem (pages : List (List String)) :
    ∀ acc x, x ∈ pages.foldl (fun acc page => page.foldl insertKey acc) acc ↔
      x ∈ acc ∨ x ∈ pages.flatten := by
  induction pages with
  | nil => simp
  | cons page rest ih =>
    intro acc x
    rw [List.foldl_cons, ih, foldl_insertKey_mem]
    simp only [List.flatten_cons, List.mem_append]
    tauto

lemma collectKeys_nodup (pages : List (List String)) : (collectKeys pages).Nodup :=
  collect_aux_nodup pages [] List.nodup_nil

lemma collectKeys_mem (pages : List (List String)) (x : String) :
    x ∈ collectKeys pages ↔ x ∈ pages.flatten := by
  rw [collectKeys, collect_aux_mem]
  simp

lemma collectKeys_length (pages : List (List String)) :
    (collectKeys pages).length = (pages.flatten).toFinset.card := by
  rw [← List.toFinset_card_of_nodup (collectKeys_nodup pages)]
  congr 1
  ext x
  simp [collectKeys_mem]

/-- C7: purging a bucket whose listing pages carry K distinct keys issues
exactly K delete-object calls, one per distinct key, all of them before the
single delete-bucket call, however the keys are spread (or repeated) across
pages; with no objects at all, the only call is the delete-bucket call. -/
theorem c7_purge_exhaustive (b : String) (pages : List (List String)) :
    (purgeOps b pages).countP PurgeOp.isDeleteObject = (pages.flatten).toFinset.card ∧
    (∀ k : String, (purgeOps b pages).count (PurgeOp.deleteObject k) =
      if k ∈ pages.flatten then 1 else 0) ∧
    (purgeOps b pages).countP PurgeOp.isDeleteBucket = 1 ∧
    (purgeOps b pages).getLast? = some (PurgeOp.deleteBucket b) ∧
    (pages.flatten = [] → purgeOps b pages = [PurgeOp.deleteBucket b]) := by
  refine ⟨?_, fun k => ?_, ?_, ?_, fun hflat => ?_⟩
  · rw [purgeOps, List.countP_append, List.countP_map]
    have hall : (PurgeOp.isDeleteObject ∘ PurgeOp.deleteObject) = fun _ : String => true := rfl
    rw [hall, List.countP_true, collectKeys_length]
    rfl
  · rw [purgeOps, List.count_append,
      List.count_map_of_injective _ PurgeOp.deleteObject
        (fun a b h => by injection h) k]
    have h0 : List.count (PurgeOp.deleteObject k) [PurgeOp.deleteBucket b] = 0 := rfl
    rw [h0, Nat.add_zero]
    by_cases hk : k ∈ pages.flatten
    · rw [if_pos hk]
      exact List.count_eq_one_of_mem (collectKeys_nodup pages)
        ((collectKeys_mem pages k).mpr hk)
    · rw [if_neg hk]
      exact List.count_eq_zero_of_not_mem
        (fun hmem => hk ((collectKeys_mem pages k).mp hmem))
  · rw [purgeOps, List.countP_append, List.countP_map]
    have hnone : (PurgeOp.isDeleteBucket ∘ PurgeOp.deleteObject) = fun _ : String => false := rfl
    rw [hnone, List.countP_false]
    rfl
  · rw [purgeOps]
    exact List.getLast?_concat _
  · have hempty : collectKeys pages = [] := by
      rcases List.eq_nil_or_concat (collectKeys pages) with h | ⟨l, x, h⟩
      · exact h
      · exfalso
        have hx : x ∈ collectKeys pages := by
          rw [h]
          simp
        rw [collectKeys_mem, hflat] at hx
        simp at hx
    rw [purgeOps, hempty]
    rfl

/-- Witness for C7 at a bucket with two empty listing pages: no delete-object
calls and exactly the delete-bucket call. -/
theorem c7_purge_exhaustive_witness :
    ([[], []] : List (List String)).flatten = [] ∧
    purgeOps "b" [[], []] = [PurgeOp.deleteBucket "b"] :=
  ⟨rfl, (c7_purge_exhaustive "b" [[], []]).2.2.2.2 rfl⟩

/-- main.rs lines 38-45: the region string must be one of three literals; any
other string panics, modelled as none. -/
def region_from_str (region : String) : Option String :=
  match region with
  | "us-east-1" => some "us-east-1"
  | "ap-northeast-1" => some "ap-northeast-1"
  | "ap-northeast-3" => some "ap-northeast-3"
  | _ => none

/-- The environment variables main reads: OLD_AWS_REGION, NEW_AWS_REGION
(each defaulting to us-east-1 when unset) and NEW_BUCKET_SUFFIX (read only on
a name collision; none when unset). -/
structure EnvConfig where
  oldRegion : Option String
  newRegion : Option String
  suffix : Option String

/-- The externally observable steps of main (main.rs lines 47-179), in
program order: configuration resolution, network calls, and panics. -/
inductive Event where
  | resolvedRegion (r : String)
  | netListBuckets
  | netCreateBucket (name : String)
  | netListObjectsV2 (bucket : String)
  | netListObjects (bucket : String)
  | netObjectTransfers (bucket : String)
  | panicked (msg : String)
deriving DecidableEq

def Event.isNet : Event → Bool
  | Event.netListBuckets => true
  | Event.netCreateBucket _ => true
  | Event.netListObjectsV2 _ => true
  | Event.netListObjects _ => true
  | Event.netObjectTransfers _ => true
  | _ => false

def Event.isPanic : Event → Bool
  | Event.panicked _ => true
  | _ => false

/-- main.rs lines 111-175: the per-bucket work after bucket creation has been
resolved (destination listing, source listing, the re-issued creation with a
location constraint, then the object transfers), summarised as its network
calls. -/
def bucketBody (oldName newName : String) : List Event :=
  [Event.netListObjectsV2 newName, Event.netListObjects oldName,
   Event.netCreateBucket newName, Event.netObjectTransfers oldName]

/-- main.rs lines 83-176: the trace of the bucket loop.  Each source bucket
contributes its create_bucket call; a BucketAlreadyExists failure reads
NEW_BUCKET_SUFFIX (panicking if it is unset — the expect on line 96) and
retries with the suffixed name; a BucketAlreadyOwnedByYou failure proceeds
with the original name; any other failure panics.  The input pairs each
bucket name with the debug string of its first create_bucket outcome. -/
def bucketsTrace (suffix : Option String) :
    List (String × Except String Unit) → List Event
  | [] => []
  | (name, res) :: rest =>
    Event.netCreateBucket name ::
    (match res with
     | Except.ok _ => bucketBody name name ++ bucketsTrace suffix rest
     | Except.error e =>
       if errContains e "BucketAlreadyExists" then
         match suffix with
         | none => [Event.panicked "NEW_BUCKET_SUFFIX must be set"]
         | some s =>
           Event.netCreateBucket (name ++ s) ::
             (bucketBody name (name ++ s) ++ bucketsTrace suffix rest)
       else if !(errContains e "BucketAlreadyOwnedByYou") then
         [Event.panicked "create_bucket"]
       else bucketBody name name ++ bucketsTrace suffix rest)

/-- main.rs lines 47-179: the trace of one run.  Both regions are resolved
(panicking on an invalid string) before the first network call, then the
source buckets are listed and the bucket loop runs. -/
def mainTrace (env : EnvConfig) (buckets : List (String × Except String Unit)) :
    List Event :=
  match region_from_str (env.oldRegion.getD "us-east-1") with
  | none => [Event.panicked "Invalid region"]
  | some r1 =>
    Event.resolvedRegion r1 ::
    (match region_from_str (env.newRegion.getD "us-east-1") with
     | none => [Event.panicked "Invalid region"]
     | some r2 =>
       Event.resolvedRegion r2 :: Event.netListBuckets ::
         bucketsTrace env.suffix buckets)

/-- C8 counterexample: with both regions valid but NEW_BUCKET_SUFFIX unset,
a run whose first bucket creation fails with BucketAlreadyExists performs
network activity (the bucket listing and a create_bucket call) and only then
panics on the missing suffix — the missing required option does not make the
process fail before network activity. -/
theorem c8_failfast_counterexample :
    ((mainTrace ⟨some "us-east-1", some "us-east-1", none⟩
        [("b", Except.error "BucketAlreadyExists")]).takeWhile
          (fun e => !(Event.isPanic e))).any Event.isNet = true ∧
    (mainTrace ⟨some "us-east-1", some "us-east-1", none⟩
        [("b", Except.error "BucketAlreadyExists")]).any Event.isPanic = true := by
  decide

/-- C8 (amended): an invalid region string (for either endpoint) makes the
run panic before any network activity; but a missing NEW_BUCKET_SUFFIX causes
a failure only when a bucket creation first fails with BucketAlreadyExists,
by which point network activity (the bucket listing and that create_bucket
call) has already happened. -/
theorem c8_failfast_amended (env : EnvConfig)
    (buckets : List (String × Except String Unit)) :
    (region_from_str (env.oldRegion.getD "us-east-1") = none →
      mainTrace env buckets = [Event.panicked "Invalid region"] ∧
      (mainTrace env buckets).all (fun e => !(Event.isNet e)) = true) ∧
    (∀ r1, region_from_str (env.oldRegion.getD "us-east-1") = some r1 →
      region_from_str (env.newRegion.getD "us-east-1") = none →
      mainTrace env buckets =
        [Event.resolvedRegion r1, Event.panicked "Invalid region"] ∧
      (mainTrace env buckets).all (fun e => !(Event.isNet e)) = true) ∧
    (∀ r1 r2 name e rest,
      region_from_str (env.oldRegion.getD "us-east-1") = some r1 →
      region_from_str (env.newRegion.getD "us-east-1") = some r2 →
      env.suffix = none →
      errContains e "BucketAlreadyExists" = true →
      buckets = (name, Except.error e) :: rest →
      mainTrace env buckets =
        [Event.resolvedRegion r1, Event.resolvedRegion r2, Event.netListBuckets,
         Event.netCreateBucket name,
         Event.panicked "NEW_BUCKET_SUFFIX must be set"]) := by
  refine ⟨fun h => ?_, fun r1 h1 h2 => ?_, fun r1 r2 name e rest h1 h2 hs he hb => ?_⟩
  · rw [mainTrace, h]
    exact ⟨rfl, rfl⟩
  · rw [mainTrace, h1, h2]
    exact ⟨rfl, rfl⟩
  · rw [mainTrace, h1, h2, hb, hs, bucketsTrace, he]
    rfl

/-- Witness for the amended C8: a bad OLD_AWS_REGION stops the run with no
events at all; a bad NEW_AWS_REGION stops it after resolving only the old
region; an unset suffix with a colliding bucket panics right after the
listing and creation calls. -/
theorem c8_failfast_amended_witness :
    region_from_str "bad-region" = none ∧
    (mainTrace ⟨some "bad-region", some "us-east-1", some "-x"⟩ [] =
        [Event.panicked "Invalid region"] ∧
      (mainTrace ⟨some "bad-region", some "us-east-1", some "-x"⟩ []).all
        (fun e => !(Event.isNet e)) = true) ∧
    (mainTrace ⟨some "us-east-1", some "bad-region", some "-x"⟩ [] =
        [Event.resolvedRegion "us-east-1", Event.panicked "Invalid region"]) ∧
    (mainTrace ⟨some "us-east-1", some "us-east-1", none⟩
        [("b", Except.error "BucketAlreadyExists")] =
      [Event.resolvedRegion "us-east-1", Event.resolvedRegion "us-east-1",
       Event.netListBuckets, Event.netCreateBucket "b",
       Event.panicked "NEW_BUCKET_SUFFIX must be set"]) :=
  ⟨rfl,
   (c8_failfast_amended ⟨some "bad-region", some "us-east-1", some "-x"⟩ []).1 rfl,
   ((c8_failfast_amended ⟨some "us-east-1", some "bad-region", some "-x"⟩ []).2.1
      "us-east-1" rfl rfl).1,
   (c8_failfast_amended ⟨some "us-east-1", some "us-east-1", none⟩
      [("b", Except.error "BucketAlreadyExists")]).2.2
      "us-east-1" "us-east-1" "b" "BucketAlreadyExists" [] rfl rfl rfl (by decide) rfl⟩

end S3Copy
